import Mathlib

/-!
Shallow embedding of the chart-computation core of the swiss-ephemeris MCP server
(`src/index.js`), together with theorems checking the specification's claims.

Modelling conventions:
* JavaScript numbers are modelled as `Option ℚ`: `some q` is an ordinary (exact)
  numeric value, `none` models `NaN` (which in the source can only arise from
  `parseFloat` applied to a seconds token made of dots, e.g. `"."`).  All
  arithmetic appearing in the source is exact on rationals; the spec's stated
  0.01-degree tolerance absorbs any double-rounding differences.
* Strings are processed as `List Char` with structural recursion mirroring the
  source's `trim` / `split(',')` / `split('\n')` / `includes` calls, so that
  concrete runs of the parsers are kernel-computable.
* The regular expression used by the three position parsers,
  `^(\d+)\s+([a-z]{2})\s+(\d+)<apos>\s*([\d.]+)$` (case-insensitive), is
  deterministic (adjacent sub-patterns have disjoint character classes), so the
  greedy scanner below matches it exactly.  Whitespace is modelled as ASCII
  whitespace, which is what the calculator output contains.
-/

namespace SwissEph

/-! ## Numeric helpers -/

/-- JavaScript `Math.round(x * 100) / 100`: round to two decimals, halves toward
positive infinity (`Math.round x = ⌊x + 1/2⌋`). -/
def round2 (q : ℚ) : ℚ := ((⌊q * 100 + 1/2⌋ : ℤ) : ℚ) / 100

/-- JavaScript remainder `a % b` for `b > 0`: truncated division remainder, the
sign follows the dividend. -/
def jsRem (a b : ℚ) : ℚ :=
  if 0 ≤ a then a - b * ((⌊a / b⌋ : ℤ) : ℚ) else -((-a) - b * ((⌊(-a) / b⌋ : ℤ) : ℚ))

theorem round2_sub_le (q : ℚ) : |round2 q - q| ≤ 1 / 200 := by
  have h1 := Int.floor_le (q * 100 + 1/2)
  have h2 := Int.lt_floor_add_one (q * 100 + 1/2)
  rw [round2, abs_le]
  constructor <;> linarith

theorem jsRem_nonneg_of_nonneg {a b : ℚ} (ha : 0 ≤ a) (hb : 0 < b) : 0 ≤ jsRem a b := by
  have h := Int.floor_le (a / b)
  rw [jsRem, if_pos ha]
  have : b * ((⌊a / b⌋ : ℤ) : ℚ) ≤ b * (a / b) := by
    exact mul_le_mul_of_nonneg_left h (le_of_lt hb)
  have hb0 : b ≠ 0 := ne_of_gt hb
  rw [mul_div_cancel₀ a hb0] at this
  linarith

theorem jsRem_lt_of_nonneg {a b : ℚ} (ha : 0 ≤ a) (hb : 0 < b) : jsRem a b < b := by
  have h := Int.lt_floor_add_one (a / b)
  rw [jsRem, if_pos ha]
  have hb0 : b ≠ 0 := ne_of_gt hb
  have : a / b < ((⌊a / b⌋ : ℤ) : ℚ) + 1 := h
  have h3 : a < b * (((⌊a / b⌋ : ℤ) : ℚ) + 1) := by
    have := mul_lt_mul_of_pos_left this hb
    rwa [mul_div_cancel₀ a hb0] at this
  nlinarith

theorem jsRem_eq_sub_floor {a b : ℚ} (ha : 0 ≤ a) :
    jsRem a b = a - b * ((⌊a / b⌋ : ℤ) : ℚ) := by
  rw [jsRem, if_pos ha]

/-! ## Character-list string helpers (mirroring JS string methods) -/

/-- Character code 39, the apostrophe that separates minutes from seconds. -/
def aposChar : Char := Char.ofNat 39

def dotChar : Char := '.'

def commaChar : Char := ','

def nlChar : Char := Char.ofNat 10

/-- JavaScript `String.prototype.trim` on a character list. -/
def trimList (cs : List Char) : List Char :=
  ((cs.dropWhile Char.isWhitespace).reverse.dropWhile Char.isWhitespace).reverse

/-- JavaScript `String.prototype.split` with a single-character separator. -/
def splitOnCharList (sep : Char) : List Char → List (List Char)
  | [] => [[]]
  | c :: t =>
    let r := splitOnCharList sep t
    if c = sep then [] :: r
    else
      match r with
      | h :: t2 => (c :: h) :: t2
      | [] => [[c]]

def isPrefixList : List Char → List Char → Bool
  | [], _ => true
  | _ :: _, [] => false
  | p :: ps, c :: cs => p = c && isPrefixList ps cs

/-- JavaScript `String.prototype.includes` on character lists. -/
def containsList (pat : List Char) : List Char → Bool
  | [] => pat.isEmpty
  | c :: t => isPrefixList pat (c :: t) || containsList pat t

/-- Digit run to a natural number, as JavaScript `parseInt` on an all-digit string. -/
def digitsToNat (cs : List Char) : ℕ := cs.foldl (fun n c => 10 * n + (c.toNat - 48)) 0

/-- Value of a digit run read as the fractional part after a decimal point. -/
def fracOfDigits (cs : List Char) : ℚ := (digitsToNat cs : ℚ) / (10 : ℚ) ^ cs.length

/-- JavaScript `parseFloat` restricted to the tokens matched by `[\d.]+` (digits
and dots, no sign or exponent): `none` models `NaN`. -/
def jsParseFloat (cs : List Char) : Option ℚ :=
  match cs with
  | [] => none
  | c :: rest =>
    if c.isDigit then
      let ip := (c :: rest).takeWhile Char.isDigit
      let r1 := (c :: rest).dropWhile Char.isDigit
      match r1 with
      | [] => some (digitsToNat ip : ℚ)
      | h :: r2 =>
        if h = dotChar then some ((digitsToNat ip : ℚ) + fracOfDigits (r2.takeWhile Char.isDigit))
        else some (digitsToNat ip : ℚ)
    else if c = dotChar then
      match rest with
      | d :: _ =>
        if d.isDigit then some (fracOfDigits (rest.takeWhile Char.isDigit)) else none
      | [] => none
    else none

theorem digitsToNat_cast_nonneg (cs : List Char) : (0 : ℚ) ≤ (digitsToNat cs : ℚ) := by
  exact_mod_cast Nat.zero_le _

theorem fracOfDigits_nonneg (cs : List Char) : 0 ≤ fracOfDigits cs := by
  unfold fracOfDigits
  positivity

theorem jsParseFloat_nonneg {cs : List Char} {q : ℚ} (h : jsParseFloat cs = some q) : 0 ≤ q := by
  rcases cs with _ | ⟨c, rest⟩
  · simp [jsParseFloat] at h
  · simp only [jsParseFloat] at h
    split_ifs at h with hdig hdot
    · rcases hr : (c :: rest).dropWhile Char.isDigit with _ | ⟨h1, r2⟩ <;> rw [hr] at h <;>
        dsimp only at h
      · rw [Option.some.injEq] at h
        subst h
        exact digitsToNat_cast_nonneg _
      · split_ifs at h <;> rw [Option.some.injEq] at h <;> subst h
        · have h1 := digitsToNat_cast_nonneg ((c :: rest).takeWhile Char.isDigit)
          have h2 := fracOfDigits_nonneg (r2.takeWhile Char.isDigit)
          linarith
        · exact digitsToNat_cast_nonneg _
    · rcases rest with _ | ⟨d, r⟩
      · simp at h
      · dsimp only at h
        split_ifs at h with hdd
        rw [Option.some.injEq] at h
        subst h
        exact fracOfDigits_nonneg _

/-! ## Sign table -/

/-- The `signMap` object shared by the three parsers: two-letter abbreviation to
canonical sign name and 0-330 degree base offset. -/
def signMap : List (String × String × ℚ) :=
  [("ar", "Aries", 0), ("ta", "Taurus", 30), ("ge", "Gemini", 60), ("cn", "Cancer", 90),
   ("le", "Leo", 120), ("vi", "Virgo", 150), ("li", "Libra", 180), ("sc", "Scorpio", 210),
   ("sa", "Sagittarius", 240), ("cp", "Capricorn", 270), ("aq", "Aquarius", 300),
   ("pi", "Pisces", 330)]

/-- The `signs` array used when synthesizing derived points. -/
def signsList : List String :=
  ["Aries", "Taurus", "Gemini", "Cancer", "Leo", "Virgo",
   "Libra", "Scorpio", "Sagittarius", "Capricorn", "Aquarius", "Pisces"]

def lookupTbl : List (String × String × ℚ) → String → Option (String × ℚ)
  | [], _ => none
  | (k, n, o) :: t, s => if k = s then some (n, o) else lookupTbl t s

/-- Base offset of a canonical sign name (the sign table read by name). -/
def signOffsetOf : String → Option ℚ := fun s => go signMap s where
  go : List (String × String × ℚ) → String → Option ℚ
    | [], _ => none
    | (_, n, o) :: t, s => if n = s then some o else go t s

theorem lookupTbl_mem {tbl : List (String × String × ℚ)} {s : String} {r : String × ℚ}
    (h : lookupTbl tbl s = some r) : (s, r.1, r.2) ∈ tbl := by
  induction tbl with
  | nil => simp [lookupTbl] at h
  | cons e t ih =>
    obtain ⟨k, n, o⟩ := e
    rw [lookupTbl] at h
    split_ifs at h with hk
    · rw [Option.some.injEq] at h
      subst hk
      rw [← h]
      exact List.mem_cons_self _ _
    · exact List.mem_cons_of_mem _ (ih h)

theorem signMap_coherent :
    ∀ e ∈ signMap, signOffsetOf e.2.1 = some e.2.2 ∧ 0 ≤ e.2.2 ∧ e.2.2 ≤ 330 := by
  decide

/-! ## Position line parsers -/

/-- Captured fields of the position regular expression
`(\d+)\s+([a-z]{2})\s+(\d+)<apos>\s*([\d.]+)$` (sign abbreviation lowercased). -/
structure RawPos where
  deg : ℕ
  abbr : String
  minutes : ℕ
  secTok : List Char
deriving DecidableEq

/-- Greedy scan equivalent to the (deterministic) position regular expression. -/
def posRegex (cs : List Char) : Option RawPos :=
  let ds := cs.takeWhile Char.isDigit
  let r1 := cs.dropWhile Char.isDigit
  if ds.isEmpty then none else
  let w1 := r1.takeWhile Char.isWhitespace
  let r2 := r1.dropWhile Char.isWhitespace
  if w1.isEmpty then none else
  match r2 with
  | c1 :: c2 :: r3 =>
    if c1.isAlpha && c2.isAlpha then
      let w2 := r3.takeWhile Char.isWhitespace
      let r4 := r3.dropWhile Char.isWhitespace
      if w2.isEmpty then none else
      let ms := r4.takeWhile Char.isDigit
      let r5 := r4.dropWhile Char.isDigit
      if ms.isEmpty then none else
      match r5 with
      | q :: r6 =>
        if q = aposChar then
          let r7 := r6.dropWhile Char.isWhitespace
          let ss := r7.takeWhile (fun c => c.isDigit || c = dotChar)
          let r8 := r7.dropWhile (fun c => c.isDigit || c = dotChar)
          if ss.isEmpty || !r8.isEmpty then none
          else some ⟨digitsToNat ds, String.mk [c1.toLower, c2.toLower], digitsToNat ms, ss⟩
        else none
      | [] => none
    else none
  | _ => none

/-- Parsed planet (or chart-angle) line. -/
structure PlanetParse where
  name : String
  longitude : Option ℚ
  sign : String
  degree : Option ℚ
deriving DecidableEq

/-- Parsed house-cusp line. -/
structure HouseParse where
  house : ℕ
  longitude : Option ℚ
  sign : String
  degree : Option ℚ
deriving DecidableEq

/-- Numeric tail shared by the three parsers: degrees, sign offset, minutes and
seconds combined into the longitude and the two-decimal degree-in-sign. -/
def numericTail (r : RawPos) (off : ℚ) : Option ℚ × Option ℚ :=
  let sec := jsParseFloat r.secTok
  ((sec.map fun s => off + (r.deg : ℚ) + (r.minutes : ℚ) / 60 + s / 3600),
   (sec.map fun s => round2 ((r.deg : ℚ) + (r.minutes : ℚ) / 60 + s / 3600)))

/-- The `parsePlanetLine` method of the source. -/
def parsePlanetLine (line : String) : Option PlanetParse :=
  match splitOnCharList commaChar (trimList line.data) with
  | p0 :: p1 :: _ =>
    match posRegex (trimList p1) with
    | none => none
    | some r =>
      match lookupTbl signMap r.abbr with
      | none => none
      | some (nm, off) =>
        some { name := String.mk (trimList p0)
             , longitude := (numericTail r off).1
             , sign := nm
             , degree := (numericTail r off).2 }
  | _ => none

/-- Label match `^house\s+(\d+)` of `parseHouseLine`. -/
def houseLabel (cs : List Char) : Option ℕ :=
  if cs.take 5 = ("house").data then
    let r1 := cs.drop 5
    let w := r1.takeWhile Char.isWhitespace
    let r2 := r1.dropWhile Char.isWhitespace
    if w.isEmpty then none else
    let ds := r2.takeWhile Char.isDigit
    if ds.isEmpty then none else some (digitsToNat ds)
  else none

/-- The `parseHouseLine` method of the source. -/
def parseHouseLine (line : String) : Option HouseParse :=
  match splitOnCharList commaChar (trimList line.data) with
  | p0 :: p1 :: _ =>
    match houseLabel (trimList p0) with
    | none => none
    | some hn =>
      match posRegex (trimList p1) with
      | none => none
      | some r =>
        match lookupTbl signMap r.abbr with
        | none => none
        | some (nm, off) =>
          some { house := hn
               , longitude := (numericTail r off).1
               , sign := nm
               , degree := (numericTail r off).2 }
  | _ => none

/-- The `parseChartPointLine` method is a verbatim copy of `parsePlanetLine` in
the source. -/
def parseChartPointLine (line : String) : Option PlanetParse := parsePlanetLine line

/-! ## Chart assembly -/

/-- Value stored in the chart maps: `{longitude, sign, degree}`.  `sign` is
`Option` because `signs[Math.floor(NaN / 30)]` is `undefined` in the source. -/
structure CPoint where
  longitude : Option ℚ
  sign : Option String
  degree : Option ℚ
deriving DecidableEq

def toCPoint (p : PlanetParse) : CPoint := ⟨p.longitude, some p.sign, p.degree⟩

def houseCPoint (h : HouseParse) : CPoint := ⟨h.longitude, some h.sign, h.degree⟩

/-- JavaScript object assignment `m[k] = v`: replace in place or append. -/
def upsertA {α : Type} [DecidableEq α] : List (α × CPoint) → α → CPoint → List (α × CPoint)
  | [], k, v => [(k, v)]
  | (k0, v0) :: t, k, v => if k0 = k then (k, v) :: t else (k0, v0) :: upsertA t k v

/-- JavaScript object property read `m[k]`. -/
def lookupA {α : Type} [DecidableEq α] : List (α × CPoint) → α → Option CPoint
  | [], _ => none
  | (k0, v0) :: t, k => if k0 = k then some v0 else lookupA t k

abbrev SMap := List (String × CPoint)

abbrev NMap := List (ℕ × CPoint)

/-- The `planetNames` canonicalization table of `calculateEphemeris`. -/
def planetNames : List (String × String) :=
  [("Sun", "Sun"), ("Moon", "Moon"), ("Mercury", "Mercury"), ("Venus", "Venus"),
   ("Mars", "Mars"), ("Jupiter", "Jupiter"), ("Saturn", "Saturn"), ("Uranus", "Uranus"),
   ("Neptune", "Neptune"), ("Pluto", "Pluto"), ("mean Node", "North Node"),
   ("true Node", "North Node"), ("Chiron", "Chiron"), ("mean Apogee", "Lilith"),
   ("Ceres", "Ceres"), ("Pallas", "Pallas"), ("Juno", "Juno"), ("Vesta", "Vesta")]

/-- The `pointNames` canonicalization table for chart angles. -/
def pointNames : List (String × String) :=
  [("Ascendant", "Ascendant"), ("MC", "Midheaven"), ("ARMC", "ARMC"), ("Vertex", "Vertex")]

def lookupStr : List (String × String) → String → Option String
  | [], _ => none
  | (k, v) :: t, s => if k = s then some v else lookupStr t s

/-- Raw label to canonical body name; unmapped labels pass through. -/
def canonPlanet (s : String) : String := (lookupStr planetNames s).getD s

/-- Raw angle label to canonical chart-point name; unmapped labels pass through. -/
def canonPoint (s : String) : String := (lookupStr pointNames s).getD s

/-- The line filter of `calculateEphemeris`:
`line.trim() && !line.includes(<error:>) && !line.includes(<warning:>)`. -/
def keepLine (l : List Char) : Bool :=
  !(trimList l).isEmpty && !containsList (("error:").data) l && !containsList (("warning:").data) l

def filterLines (cs : List Char) : List (List Char) :=
  (splitOnCharList nlChar cs).filter keepLine

/-- One step of the planets loop: parse, canonicalize the name, store. -/
def planetStep (m : SMap) (line : List Char) : SMap :=
  match parsePlanetLine (String.mk line) with
  | none => m
  | some pl => upsertA m (canonPlanet pl.name) (toCPoint pl)

/-- Accumulation of the planets map over the filtered planet lines. -/
def buildPlanets (lines : List (List Char)) : SMap := lines.foldl planetStep []

/-- One step of the houses/chart-points loop over the filtered house lines. -/
def houseStep (acc : NMap × SMap) (line : List Char) : NMap × SMap :=
  if containsList (("house ").data) line then
    match parseHouseLine (String.mk line) with
    | some h =>
      if 1 ≤ h.house ∧ h.house ≤ 12 then (upsertA acc.1 h.house (houseCPoint h), acc.2)
      else acc
    | none => acc
  else
    if containsList (("Ascendant").data) line || containsList (("MC").data) line ||
        containsList (("ARMC").data) line || containsList (("Vertex").data) line then
      match parseChartPointLine (String.mk line) with
      | some cp => (acc.1, upsertA acc.2 (canonPoint cp.name) (toCPoint cp))
      | none => acc
    else acc

def buildHouses (lines : List (List Char)) : NMap × SMap := lines.foldl houseStep ([], [])

/-- Synthesis of a derived point from a longitude, as in the four derived-point
blocks of the source: `signs[Math.floor(lon / 30)]` and
`Math.round((lon % 30) * 100) / 100`. -/
def synthFromLon : Option ℚ → CPoint
  | none => ⟨none, none, none⟩
  | some l =>
    ⟨some l,
     if (⌊l / 30⌋ : ℤ) < 0 then none else signsList[(⌊l / 30⌋ : ℤ).toNat]?,
     some (round2 (jsRem l 30))⟩

/-- South Node block: `(northNode.longitude + 180) % 360`, only if present. -/
def addSouthNode (planets : SMap) (add : SMap) : SMap :=
  match lookupA planets ("North Node") with
  | none => add
  | some nn =>
    upsertA add ("South Node") (synthFromLon (nn.longitude.map fun l => jsRem (l + 180) 360))

/-- Part-of-Fortune longitude: `(asc + moon - sun) % 360`, plus `360` if negative. -/
def pofLon (asc sun moon : Option ℚ) : Option ℚ :=
  match asc, sun, moon with
  | some a, some s, some m =>
    some (if jsRem (a + m - s) 360 < 0 then jsRem (a + m - s) 360 + 360 else jsRem (a + m - s) 360)
  | _, _, _ => none

/-- Part of Fortune block: requires `chartPoints.Ascendant`, `planets.Sun` and
`planets.Moon` all present. -/
def addPoF (planets cps : SMap) (add : SMap) : SMap :=
  match lookupA cps ("Ascendant"), lookupA planets ("Sun"), lookupA planets ("Moon") with
  | some asc, some sun, some moon =>
    upsertA add ("Part of Fortune")
      (synthFromLon (pofLon asc.longitude sun.longitude moon.longitude))
  | _, _, _ => add

/-- The `additionalPoints` map: South Node block then Part of Fortune block. -/
def deriveAdditional (planets cps : SMap) : SMap := addPoF planets cps (addSouthNode planets [])

/-- Shared shape of the Descendant and IC blocks: read `src`, store the synthesis
of `(longitude + 180) % 360` under `dst`. -/
def addOpposite (cps : SMap) (src dst : String) : SMap :=
  match lookupA cps src with
  | none => cps
  | some p => upsertA cps dst (synthFromLon (p.longitude.map fun l => jsRem (l + 180) 360))

/-- The four point maps of the record returned by `calculateEphemeris` (the
datetime and coordinates fields are echoes of the inputs and are omitted). -/
structure Chart where
  planets : SMap
  houses : NMap
  chartPoints : SMap
  additionalPoints : SMap
deriving DecidableEq

/-- Chart assembly from the two already-split output streams. -/
def chartFromLines (plines hlines : List (List Char)) : Chart :=
  ⟨buildPlanets (plines.filter keepLine),
   (buildHouses (hlines.filter keepLine)).1,
   addOpposite (addOpposite (buildHouses (hlines.filter keepLine)).2 ("Ascendant")
     ("Descendant")) ("Midheaven") ("IC"),
   deriveAdditional (buildPlanets (plines.filter keepLine))
     (buildHouses (hlines.filter keepLine)).2⟩

/-- The pure part of `calculateEphemeris`: chart assembly from the planet and
house text streams produced by the external calculator. -/
def assembleChart (ptxt htxt : String) : Chart :=
  chartFromLines (splitOnCharList nlChar ptxt.data) (splitOnCharList nlChar htxt.data)

/-- Every `ChartPoint` value appearing in an assembled chart. -/
def allPoints (c : Chart) : List CPoint :=
  c.planets.map Prod.snd ++ c.houses.map Prod.snd ++ c.chartPoints.map Prod.snd ++
    c.additionalPoints.map Prod.snd

/-! ## Aspect engine -/

structure Aspect where
  person1Planet : String
  person2Planet : String
  aspect : String
  orb : ℚ
  exactAngle : ℚ
  person1Position : CPoint
  person2Position : CPoint
deriving DecidableEq

/-- The seven aspect types in `Object.entries(aspectAngles)` iteration order,
with the target angle and maximum orb from `aspectAngles` / `aspectOrbs`. -/
def aspectTypes : List (String × ℚ × ℚ) :=
  [("conjunction", 0, 8), ("semisextile", 30, 3), ("sextile", 60, 6), ("square", 90, 8),
   ("trine", 120, 8), ("quincunx", 150, 3), ("opposition", 180, 8)]

/-- The `mainPlanets` array: only the ten classical planets enter synastry. -/
def mainPlanets : List String :=
  ["Sun", "Moon", "Mercury", "Venus", "Mars", "Jupiter", "Saturn", "Uranus", "Neptune", "Pluto"]

/-- Angular distance of the source: `|l1 - l2|`, folded over 180. -/
def sepOf (l1 l2 : ℚ) : ℚ := if 180 < |l1 - l2| then 360 - |l1 - l2| else |l1 - l2|

def mkAspect (p1 p2 nm : String) (ang d : ℚ) (pos1 pos2 : CPoint) : Aspect :=
  ⟨p1, p2, nm, round2 |d - ang|, round2 d, pos1, pos2⟩

/-- Aspect records pushed for one ordered planet pair.  When either longitude is
`NaN` every comparison `angleDiff <= orb` is false in the source, so no record
is pushed. -/
def pairAspects (p1 p2 : String) (pos1 pos2 : CPoint) : List Aspect :=
  match pos1.longitude, pos2.longitude with
  | some l1, some l2 =>
    aspectTypes.filterMap fun t =>
      if |sepOf l1 l2 - t.2.1| ≤ t.2.2 then some (mkAspect p1 p2 t.1 t.2.1 (sepOf l1 l2) pos1 pos2)
      else none
  | _, _ => []

/-- A planets map as consumed by `calculateSynastryAspects`. -/
abbrev PFun := String → Option CPoint

def pairList (A B : PFun) (p1 p2 : String) : List Aspect :=
  match A p1, B p2 with
  | some pos1, some pos2 => pairAspects p1 p2 pos1 pos2
  | _, _ => []

/-- The aspect list before the final sort, in loop enumeration order. -/
def rawAspects (A B : PFun) : List Aspect :=
  mainPlanets.flatMap fun p1 => mainPlanets.flatMap fun p2 => pairList A B p1 p2

/-- Sort comparator `parseFloat(a.orb) - parseFloat(b.orb)`. -/
def aspLE (a b : Aspect) : Bool := decide (a.orb ≤ b.orb)

/-- The `calculateSynastryAspects` method: enumerate, then stable-sort ascending
by orb (`Array.prototype.sort` is stable). -/
def synastryAspects (A B : PFun) : List Aspect := (rawAspects A B).mergeSort aspLE

/-- Exchange of the person1/person2 roles in an aspect record. -/
def roleSwap (a : Aspect) : Aspect :=
  ⟨a.person2Planet, a.person1Planet, a.aspect, a.orb, a.exactAngle,
   a.person2Position, a.person1Position⟩

/-! ## C5 -/

/-- C5: parsing the exact line `Sun            ,22 le 53<apos>51.2332` with the
planet-line parser yields sign Leo, longitude computed as
`signOffset + degrees + minutes/60 + seconds/3600` (approximately `142.8975`),
and `degreeInSign = 22.90` after rounding to two decimals. -/
theorem c5_concrete_sun_line :
    parsePlanetLine ("Sun            ,22 le 53\x2751.2332") =
      some { name := "Sun"
           , longitude := some (120 + 22 + 53 / 60 + (51 + 2332 / 10 ^ 4) / 3600)
           , sign := "Leo"
           , degree := some (229 / 10) } ∧
    |(120 + 22 + 53 / 60 + (51 + 2332 / 10 ^ 4) / 3600 : ℚ) - 1428975 / 10000| < 1 / 1000 := by
  constructor
  · simp only [parsePlanetLine]
    rw [show splitOnCharList commaChar (trimList (("Sun            ,22 le 53\x2751.2332").data)) =
        [("Sun            ").data, ("22 le 53\x2751.2332").data] from by decide]
    dsimp only
    rw [show posRegex (trimList (("22 le 53\x2751.2332").data)) =
        some ⟨22, "le", 53, ("51.2332").data⟩ from by decide]
    dsimp only
    rw [show lookupTbl signMap ("le") = some (("Leo"), 120) from by decide]
    dsimp only
    simp only [numericTail]
    rw [show jsParseFloat (['5', '1', '.', '2', '3', '3', '2']) = some (51 + 2332 / 10 ^ 4) from by
      simp [jsParseFloat, dotChar, digitsToNat, fracOfDigits]]
    dsimp only [Option.map]
    simp only [Option.some.injEq, PlanetParse.mk.injEq]
    refine ⟨by decide, ?_, trivial, ?_⟩
    · push_cast
      norm_num
    · rw [show ((22 : ℕ) : ℚ) + ((53 : ℕ) : ℚ) / 60 + (51 + 2332 / 10 ^ 4) / 3600 =
          206078083 / 9000000 from by push_cast; norm_num]
      rw [round2, show ((206078083 : ℚ) / 9000000 * 100 + 1 / 2) = 206123083 / 90000 from by
        norm_num]
      rw [show (⌊(206123083 : ℚ) / 90000⌋ : ℤ) = 2290 from by
        rw [Int.floor_eq_iff]
        norm_num]
      norm_num
  · rw [abs_lt]
    constructor <;> norm_num

/-! ## C9 -/

theorem round2_nonneg {q : ℚ} (h : 0 ≤ q) : 0 ≤ round2 q := by
  rw [round2]
  have h1 : (0 : ℤ) ≤ ⌊q * 100 + 1/2⌋ := by
    rw [Int.le_floor]
    push_cast
    linarith
  have h2 : (0 : ℚ) ≤ ((⌊q * 100 + 1/2⌋ : ℤ) : ℚ) := by exact_mod_cast h1
  linarith

theorem round2_le_30 {q : ℚ} (h : q < 30) : round2 q ≤ 30 := by
  rw [round2]
  have h1 : ⌊q * 100 + 1/2⌋ < 3001 := by
    rw [Int.floor_lt]
    push_cast
    linarith
  have h2 : ((⌊q * 100 + 1/2⌋ : ℤ) : ℚ) ≤ 3000 := by exact_mod_cast (by omega : ⌊q * 100 + 1/2⌋ ≤ 3000)
  linarith

/-- Range bounds for the shared numeric tail, assuming the three numeric fields
are in calendar range. -/
theorem numericTail_bounds (r : RawPos) (nm : String) (off : ℚ)
    (hsign : lookupTbl signMap r.abbr = some (nm, off))
    (hdeg : r.deg < 30) (hmin : r.minutes < 60)
    (hs : ∀ s, jsParseFloat r.secTok = some s → s < 60) :
    (∀ l, (numericTail r off).1 = some l → 0 ≤ l ∧ l < 360) ∧
    (∀ d, (numericTail r off).2 = some d → 0 ≤ d ∧ d ≤ 30) := by
  have hcoh := signMap_coherent _ (lookupTbl_mem hsign)
  dsimp only at hcoh
  obtain ⟨-, hoff0, hoff330⟩ := hcoh
  cases hsec : jsParseFloat r.secTok with
  | none =>
    constructor <;> intro x hx <;> simp [numericTail, hsec] at hx
  | some s =>
    have hs0 : 0 ≤ s := jsParseFloat_nonneg hsec
    have hs60 : s < 60 := hs s hsec
    have hdegQ : (r.deg : ℚ) ≤ 29 := by exact_mod_cast (by omega : r.deg ≤ 29)
    have hminQ : (r.minutes : ℚ) ≤ 59 := by exact_mod_cast (by omega : r.minutes ≤ 59)
    have hdeg0 : (0 : ℚ) ≤ (r.deg : ℚ) := Nat.cast_nonneg _
    have hmin0 : (0 : ℚ) ≤ (r.minutes : ℚ) := Nat.cast_nonneg _
    have hv0 : (0 : ℚ) ≤ (r.deg : ℚ) + (r.minutes : ℚ) / 60 + s / 3600 := by linarith
    have hv30 : (r.deg : ℚ) + (r.minutes : ℚ) / 60 + s / 3600 < 30 := by linarith
    constructor
    · intro l hl
      simp only [numericTail] at hl
      rw [hsec] at hl
      dsimp only [Option.map] at hl
      rw [Option.some.injEq] at hl
      subst hl
      constructor <;> linarith
    · intro d hd
      simp only [numericTail] at hd
      rw [hsec] at hd
      dsimp only [Option.map] at hd
      rw [Option.some.injEq] at hd
      subst hd
      exact ⟨round2_nonneg hv0, round2_le_30 hv30⟩

/-- Hypothesis that the numeric fields of the position part of a line are in
calendar range: degrees below 30, minutes below 60, seconds value below 60. -/
def fieldsInRange (line : String) : Prop :=
  ∀ p0 p1 rest r, splitOnCharList commaChar (trimList line.data) = p0 :: p1 :: rest →
    posRegex (trimList p1) = some r →
    r.deg < 30 ∧ r.minutes < 60 ∧ ∀ s, jsParseFloat r.secTok = some s → s < 60

/-- C9 (counterexample): the line `X,400 ar 0<apos>0` is accepted by the parser
but yields longitude 400, outside `[0,360)`, and degreeInSign 400, outside
`[0,30)` — the parser does not range-check its numeric fields. -/
theorem c9_counterexample :
    parsePlanetLine ("X,400 ar 0\x270") =
      some { name := "X", longitude := some 400, sign := "Aries", degree := some 400 } ∧
    ¬ ((400 : ℚ) < 360) ∧ ¬ ((400 : ℚ) < 30) := by
  refine ⟨?_, by norm_num, by norm_num⟩
  simp only [parsePlanetLine]
  rw [show splitOnCharList commaChar (trimList (("X,400 ar 0\x270").data)) =
      [("X").data, ("400 ar 0\x270").data] from by decide]
  dsimp only
  rw [show posRegex (trimList (("400 ar 0\x270").data)) =
      some ⟨400, "ar", 0, ("0").data⟩ from by decide]
  dsimp only
  rw [show lookupTbl signMap ("ar") = some (("Aries"), 0) from by decide]
  dsimp only
  simp only [numericTail]
  rw [show jsParseFloat (['0']) = some ((0 : ℕ) : ℚ) from by
    simp [jsParseFloat, digitsToNat]]
  dsimp only [Option.map]
  simp only [Option.some.injEq, PlanetParse.mk.injEq]
  refine ⟨by decide, by push_cast; norm_num, trivial, ?_⟩
  rw [show ((400 : ℕ) : ℚ) + ((0 : ℕ) : ℚ) / 60 + ((0 : ℕ) : ℚ) / 3600 = 400 from by
    push_cast; norm_num]
  rw [round2, show (400 : ℚ) * 100 + 1/2 = 80001 / 2 from by norm_num]
  rw [show ⌊(80001 : ℚ) / 2⌋ = (40000 : ℤ) from by rw [Int.floor_eq_iff]; norm_num]
  norm_num

/-- C9 (amended): for every line accepted by any of the three position parsers
whose degrees field is below 30, minutes below 60 and seconds value below 60,
the returned point has longitude in `[0,360)` and degreeInSign in `[0,30]`
(rounding to two decimals can reach exactly 30, e.g. at 29 degrees 59 minutes
59.99 seconds, so the right endpoint is closed). -/
theorem c9_amended (line : String) (hrange : fieldsInRange line) :
    (∀ p, parsePlanetLine line = some p →
      (∀ l, p.longitude = some l → 0 ≤ l ∧ l < 360) ∧
      (∀ d, p.degree = some d → 0 ≤ d ∧ d ≤ 30)) ∧
    (∀ h, parseHouseLine line = some h →
      (∀ l, h.longitude = some l → 0 ≤ l ∧ l < 360) ∧
      (∀ d, h.degree = some d → 0 ≤ d ∧ d ≤ 30)) ∧
    (∀ p, parseChartPointLine line = some p →
      (∀ l, p.longitude = some l → 0 ≤ l ∧ l < 360) ∧
      (∀ d, p.degree = some d → 0 ≤ d ∧ d ≤ 30)) := by
  have hplanet : ∀ p, parsePlanetLine line = some p →
      (∀ l, p.longitude = some l → 0 ≤ l ∧ l < 360) ∧
      (∀ d, p.degree = some d → 0 ≤ d ∧ d ≤ 30) := by
    intro p hp
    rw [parsePlanetLine] at hp
    rcases hsplit : splitOnCharList commaChar (trimList line.data) with _ | ⟨p0, _ | ⟨p1, rest⟩⟩ <;>
      rw [hsplit] at hp <;> dsimp only at hp
    · exact absurd hp (by simp)
    · exact absurd hp (by simp)
    · rcases hreg : posRegex (trimList p1) with _ | r <;> rw [hreg] at hp <;> dsimp only at hp
      · exact absurd hp (by simp)
      · rcases hsgn : lookupTbl signMap r.abbr with _ | ⟨nm, off⟩ <;> rw [hsgn] at hp <;>
          dsimp only at hp
        · exact absurd hp (by simp)
        · obtain ⟨hdeg, hmin, hsec⟩ := hrange p0 p1 rest r hsplit hreg
          have hb := numericTail_bounds r nm off hsgn hdeg hmin hsec
          rw [Option.some.injEq] at hp
          subst hp
          exact hb
  refine ⟨hplanet, ?_, hplanet⟩
  intro h hp
  rw [parseHouseLine] at hp
  rcases hsplit : splitOnCharList commaChar (trimList line.data) with _ | ⟨p0, _ | ⟨p1, rest⟩⟩ <;>
    rw [hsplit] at hp <;> dsimp only at hp
  · exact absurd hp (by simp)
  · exact absurd hp (by simp)
  · rcases hlab : houseLabel (trimList p0) with _ | hn <;> rw [hlab] at hp <;> dsimp only at hp
    · exact absurd hp (by simp)
    · rcases hreg : posRegex (trimList p1) with _ | r <;> rw [hreg] at hp <;> dsimp only at hp
      · exact absurd hp (by simp)
      · rcases hsgn : lookupTbl signMap r.abbr with _ | ⟨nm, off⟩ <;> rw [hsgn] at hp <;>
          dsimp only at hp
        · exact absurd hp (by simp)
        · obtain ⟨hdeg, hmin, hsec⟩ := hrange p0 p1 rest r hsplit hreg
          have hb := numericTail_bounds r nm off hsgn hdeg hmin hsec
          rw [Option.some.injEq] at hp
          subst hp
          exact hb

/-- Witness for the amended C9, instantiated at the concrete Sun line. -/
theorem c9_amended_witness :
    (∀ p, parsePlanetLine ("Sun            ,22 le 53\x2751.2332") = some p →
      (∀ l, p.longitude = some l → 0 ≤ l ∧ l < 360) ∧
      (∀ d, p.degree = some d → 0 ≤ d ∧ d ≤ 30)) ∧
    (∀ h, parseHouseLine ("Sun            ,22 le 53\x2751.2332") = some h →
      (∀ l, h.longitude = some l → 0 ≤ l ∧ l < 360) ∧
      (∀ d, h.degree = some d → 0 ≤ d ∧ d ≤ 30)) ∧
    (∀ p, parseChartPointLine ("Sun            ,22 le 53\x2751.2332") = some p →
      (∀ l, p.longitude = some l → 0 ≤ l ∧ l < 360) ∧
      (∀ d, p.degree = some d → 0 ≤ d ∧ d ≤ 30)) := by
  apply c9_amended
  intro p0 p1 rest r hsplit hreg
  rw [show splitOnCharList commaChar (trimList (("Sun            ,22 le 53\x2751.2332").data)) =
      [("Sun            ").data, ("22 le 53\x2751.2332").data] from by decide] at hsplit
  obtain ⟨rfl, rfl, rfl⟩ : ("Sun            ").data = p0 ∧ ("22 le 53\x2751.2332").data = p1 ∧
      rest = [] := by
    cases hsplit
    exact ⟨rfl, rfl, rfl⟩
  rw [show posRegex (trimList (("22 le 53\x2751.2332").data)) =
      some ⟨22, "le", 53, ("51.2332").data⟩ from by decide] at hreg
  rw [Option.some.injEq] at hreg
  subst hreg
  refine ⟨by norm_num, by norm_num, ?_⟩
  intro s hs
  rw [show jsParseFloat ((("51.2332").data : List Char)) = some (51 + 2332 / 10 ^ 4) from by
    simp [jsParseFloat, dotChar, digitsToNat, fracOfDigits]] at hs
  rw [Option.some.injEq] at hs
  rw [← hs]
  norm_num

/-! ## Map lemmas -/

theorem lookupA_upsertA_self {α : Type} [DecidableEq α] (m : List (α × CPoint)) (k : α)
    (v : CPoint) : lookupA (upsertA m k v) k = some v := by
  induction m with
  | nil => simp [upsertA, lookupA]
  | cons e t ih =>
    obtain ⟨k0, v0⟩ := e
    rw [upsertA]
    split_ifs with h
    · rw [lookupA, if_pos rfl]
    · rw [lookupA, if_neg h, ih]

theorem lookupA_upsertA_ne {α : Type} [DecidableEq α] (m : List (α × CPoint)) (k k' : α)
    (v : CPoint) (h : k ≠ k') : lookupA (upsertA m k v) k' = lookupA m k' := by
  induction m with
  | nil => simp [upsertA, lookupA, h]
  | cons e t ih =>
    obtain ⟨k0, v0⟩ := e
    rw [upsertA]
    split_ifs with h0
    · subst h0
      rw [lookupA, lookupA, if_neg h, if_neg h]
    · by_cases hk : k0 = k'
      · rw [lookupA, if_pos hk, lookupA, if_pos hk]
      · rw [lookupA, if_neg hk, lookupA, if_neg hk, ih]

theorem lookupA_addSouthNode_ne (planets add : SMap) (s : String) (h : s ≠ ("South Node")) :
    lookupA (addSouthNode planets add) s = lookupA add s := by
  rw [addSouthNode]
  split
  · rfl
  · rw [lookupA_upsertA_ne _ _ _ _ (fun he => h he.symm)]

theorem lookupA_addPoF_ne (planets cps add : SMap) (s : String) (h : s ≠ ("Part of Fortune")) :
    lookupA (addPoF planets cps add) s = lookupA add s := by
  rw [addPoF]
  split
  · rw [lookupA_upsertA_ne _ _ _ _ (fun he => h he.symm)]
  · rfl

/-! ## C6 -/

/-- C6: whenever the planets map contains North Node, the additional points
contain South Node at longitude `(North Node + 180) mod 360`, with sign and
degree recomputed from that longitude through the sign-table inverse; when
North Node is absent the South Node key is omitted. -/
theorem c6_south_node (planets cps : SMap) :
    (lookupA planets ("North Node") = none →
      lookupA (deriveAdditional planets cps) ("South Node") = none) ∧
    (∀ nn l, lookupA planets ("North Node") = some nn → nn.longitude = some l → 0 ≤ l →
      ∃ slon : ℚ, (∃ k : ℤ, slon = l + 180 - 360 * k) ∧ 0 ≤ slon ∧ slon < 360 ∧
        lookupA (deriveAdditional planets cps) ("South Node") =
          some ⟨some slon, signsList[(⌊slon / 30⌋ : ℤ).toNat]?,
                some (round2 (slon - 30 * ((⌊slon / 30⌋ : ℤ) : ℚ)))⟩) := by
  constructor
  · intro hnone
    rw [deriveAdditional, lookupA_addPoF_ne _ _ _ _ (by decide), addSouthNode, hnone]
    rfl
  · intro nn l hnn hl h0
    have h180 : (0 : ℚ) ≤ l + 180 := by linarith
    refine ⟨jsRem (l + 180) 360, ⟨⌊(l + 180) / 360⌋, by
      rw [jsRem_eq_sub_floor h180]⟩,
      jsRem_nonneg_of_nonneg h180 (by norm_num),
      jsRem_lt_of_nonneg h180 (by norm_num), ?_⟩
    rw [deriveAdditional, lookupA_addPoF_ne _ _ _ _ (by decide), addSouthNode, hnn]
    dsimp only
    rw [hl]
    dsimp only [Option.map]
    rw [lookupA_upsertA_self]
    have hnn0 : 0 ≤ jsRem (l + 180) 360 := jsRem_nonneg_of_nonneg h180 (by norm_num)
    have hfl : ¬ ((⌊jsRem (l + 180) 360 / 30⌋ : ℤ) < 0) := by
      rw [not_lt, Int.le_floor]
      push_cast
      positivity
    rw [synthFromLon, if_neg hfl, jsRem_eq_sub_floor hnn0]

/-- Witness for C6: North Node at longitude 15 produces South Node at longitude
195, sign Libra, degree 15. -/
theorem c6_witness :
    (∃ slon : ℚ, (∃ k : ℤ, slon = 15 + 180 - 360 * k) ∧ 0 ≤ slon ∧ slon < 360 ∧
      lookupA (deriveAdditional ([(("North Node"), ⟨some 15, some ("Aries"), some 15⟩)]) ([]))
          ("South Node") =
        some ⟨some slon, signsList[(⌊slon / 30⌋ : ℤ).toNat]?,
              some (round2 (slon - 30 * ((⌊slon / 30⌋ : ℤ) : ℚ)))⟩) ∧
    lookupA (deriveAdditional ([(("North Node"), ⟨some 15, some ("Aries"), some 15⟩)]) ([]))
        ("South Node") = some ⟨some 195, some ("Libra"), some 15⟩ := by
  constructor
  · exact (c6_south_node _ _).2 ⟨some 15, some ("Aries"), some 15⟩ 15 (by decide) rfl (by norm_num)
  · rw [deriveAdditional, lookupA_addPoF_ne _ _ _ _ (by decide), addSouthNode]
    rw [show lookupA ([(("North Node"), (⟨some 15, some ("Aries"), some 15⟩ : CPoint))])
        ("North Node") = some ⟨some 15, some ("Aries"), some 15⟩ from by decide]
    dsimp only
    dsimp only [Option.map]
    rw [lookupA_upsertA_self]
    rw [show jsRem ((15 : ℚ) + 180) 360 = 195 from by
      rw [jsRem_eq_sub_floor (by norm_num)]
      rw [show ⌊((15 : ℚ) + 180) / 360⌋ = 0 from by (rw [Int.floor_eq_iff]; norm_num)]
      norm_num]
    rw [synthFromLon]
    rw [show ⌊(195 : ℚ) / 30⌋ = (6 : ℤ) from by (rw [Int.floor_eq_iff]; norm_num)]
    rw [if_neg (by norm_num)]
    rw [show jsRem (195 : ℚ) 30 = 15 from by
      rw [jsRem_eq_sub_floor (by norm_num)]
      rw [show ⌊(195 : ℚ) / 30⌋ = (6 : ℤ) from by (rw [Int.floor_eq_iff]; norm_num)]
      norm_num]
    rw [show round2 (15 : ℚ) = 15 from by
      rw [round2, show (15 : ℚ) * 100 + 1/2 = 3001 / 2 from by norm_num]
      rw [show ⌊(3001 : ℚ) / 2⌋ = (1500 : ℤ) from by (rw [Int.floor_eq_iff]; norm_num)]
      norm_num]
    rfl

/-! ## C7 -/

theorem jsRem_neg_eq {a b : ℚ} (ha : ¬ 0 ≤ a) : jsRem a b = -jsRem (-a) b := by
  rw [jsRem, if_neg ha, jsRem, if_pos (by linarith [not_le.mp ha] : (0 : ℚ) ≤ -a)]

/-- Bounds and congruence for the Part-of-Fortune normalization: the source
computes `(a + m - s) % 360` and adds 360 when negative. -/
theorem pofLon_spec (a s m : ℚ) :
    ∃ f : ℚ, pofLon (some a) (some s) (some m) = some f ∧
      (∃ k : ℤ, f = a + m - s - 360 * k) ∧ 0 ≤ f ∧ f < 360 := by
  set x : ℚ := a + m - s with hx
  by_cases hx0 : 0 ≤ x
  · have h1 : 0 ≤ jsRem x 360 := jsRem_nonneg_of_nonneg hx0 (by norm_num)
    have h2 : jsRem x 360 < 360 := jsRem_lt_of_nonneg hx0 (by norm_num)
    refine ⟨jsRem x 360, ?_, ⟨⌊x / 360⌋, by rw [jsRem_eq_sub_floor hx0]⟩, h1, h2⟩
    simp only [pofLon, ← hx]
    rw [if_neg (by linarith)]
  · have hnx : (0 : ℚ) ≤ -x := by linarith [not_le.mp hx0]
    have h1 : 0 ≤ jsRem (-x) 360 := jsRem_nonneg_of_nonneg hnx (by norm_num)
    have h2 : jsRem (-x) 360 < 360 := jsRem_lt_of_nonneg hnx (by norm_num)
    have hj : jsRem x 360 = -jsRem (-x) 360 := jsRem_neg_eq hx0
    have hz2 : jsRem (-x) 360 = (-x) - 360 * ((⌊(-x) / 360⌋ : ℤ) : ℚ) :=
      jsRem_eq_sub_floor hnx
    by_cases hz : jsRem (-x) 360 = 0
    · refine ⟨jsRem x 360, ?_, ⟨-⌊(-x) / 360⌋, ?_⟩, by rw [hj, hz]; norm_num,
        by rw [hj, hz]; norm_num⟩
      · simp only [pofLon, ← hx]
        rw [if_neg (by rw [hj, hz]; norm_num)]
      · rw [hj, hz]
        rw [hz] at hz2
        push_cast
        linarith
    · have hneg : jsRem x 360 < 0 := by
        rcases lt_or_eq_of_le h1 with h | h
        · rw [hj]
          linarith
        · exact absurd h.symm hz
      refine ⟨jsRem x 360 + 360, ?_, ⟨-⌊(-x) / 360⌋ - 1, ?_⟩,
        by rw [hj]; linarith, by linarith⟩
      · simp only [pofLon, ← hx]
        rw [if_pos hneg]
      · rw [hj, hz2]
        push_cast
        ring

/-- C7: Part of Fortune is present in the additional points iff Ascendant, Sun
and Moon are all present; its longitude is then `(Ascendant + Moon - Sun)`
normalized into `[0,360)` (also when the raw combination is negative); when a
prerequisite is missing the key is simply omitted. -/
theorem c7_part_of_fortune (planets cps : SMap) :
    ((lookupA (deriveAdditional planets cps) ("Part of Fortune")).isSome ↔
      (lookupA cps ("Ascendant")).isSome ∧ (lookupA planets ("Sun")).isSome ∧
        (lookupA planets ("Moon")).isSome) ∧
    (∀ asc sun moon a s m, lookupA cps ("Ascendant") = some asc →
      lookupA planets ("Sun") = some sun → lookupA planets ("Moon") = some moon →
      asc.longitude = some a → sun.longitude = some s → moon.longitude = some m →
      ∃ f : ℚ, (∃ k : ℤ, f = a + m - s - 360 * k) ∧ 0 ≤ f ∧ f < 360 ∧
        ∃ p, lookupA (deriveAdditional planets cps) ("Part of Fortune") = some p ∧
          p.longitude = some f) := by
  constructor
  · rw [deriveAdditional, addPoF]
    split
    · rename_i asc sun moon hasc hsun hmoon
      rw [lookupA_upsertA_self]
      simp [hasc, hsun, hmoon]
    · rename_i harms
      rw [lookupA_addSouthNode_ne _ _ _ (by decide)]
      rw [show lookupA ([] : SMap) ("Part of Fortune") = none from rfl]
      simp only [Option.isSome_none, Bool.false_eq_true, false_iff]
      rintro ⟨h1, h2, h3⟩
      rw [Option.isSome_iff_exists] at h1 h2 h3
      obtain ⟨asc, hasc⟩ := h1
      obtain ⟨sun, hsun⟩ := h2
      obtain ⟨moon, hmoon⟩ := h3
      exact harms asc sun moon hasc hsun hmoon
  · intro asc sun moon a s m hasc hsun hmoon ha hs hm
    obtain ⟨f, hf, hk, h0, h360⟩ := pofLon_spec a s m
    refine ⟨f, hk, h0, h360, ?_⟩
    rw [deriveAdditional, addPoF]
    rw [hasc, hsun, hmoon]
    dsimp only
    rw [lookupA_upsertA_self]
    rw [ha, hs, hm, hf]
    exact ⟨_, rfl, rfl⟩

/-- Witness for C7 at a concrete chart in which the raw combination
`Ascendant + Moon - Sun = -70` is negative. -/
theorem c7_witness :
    ∃ f : ℚ, (∃ k : ℤ, f = 10 + 20 - 100 - 360 * k) ∧ 0 ≤ f ∧ f < 360 ∧
      ∃ p, lookupA (deriveAdditional
          ([(("Sun"), ⟨some 100, some ("Cancer"), some 10⟩),
            (("Moon"), ⟨some 20, some ("Taurus"), some 20⟩)])
          ([(("Ascendant"), ⟨some 10, some ("Aries"), some 10⟩)]))
        ("Part of Fortune") = some p ∧ p.longitude = some f :=
  (c7_part_of_fortune
      ([(("Sun"), ⟨some 100, some ("Cancer"), some 10⟩),
        (("Moon"), ⟨some 20, some ("Taurus"), some 20⟩)])
      ([(("Ascendant"), ⟨some 10, some ("Aries"), some 10⟩)])).2
    ⟨some 10, some ("Aries"), some 10⟩ ⟨some 100, some ("Cancer"), some 10⟩
    ⟨some 20, some ("Taurus"), some 20⟩ 10 100 20 (by decide) (by decide) (by decide)
    rfl rfl rfl

/-! ## C8 -/

theorem filter_skip {l : List Char} (h : keepLine l = false) (A B : List (List Char)) :
    (A ++ l :: B).filter keepLine = (A ++ B).filter keepLine := by
  simp [List.filter_append, List.filter_cons, h]

theorem buildPlanets_skip (A B : List (List Char)) (l : List Char)
    (h : parsePlanetLine (String.mk l) = none) :
    buildPlanets (A ++ l :: B) = buildPlanets (A ++ B) := by
  rw [buildPlanets, buildPlanets, List.foldl_append, List.foldl_append, List.foldl_cons]
  congr 1
  rw [planetStep, h]

theorem houseStep_skip (acc : NMap × SMap) (l : List Char)
    (h1 : parseHouseLine (String.mk l) = none) (h2 : parseChartPointLine (String.mk l) = none) :
    houseStep acc l = acc := by
  rw [houseStep]
  split_ifs with hh ha
  · rw [h1]
  · rw [h2]
  · rfl

theorem buildHouses_skip (A B : List (List Char)) (l : List Char)
    (h1 : parseHouseLine (String.mk l) = none) (h2 : parseChartPointLine (String.mk l) = none) :
    buildHouses (A ++ l :: B) = buildHouses (A ++ B) := by
  rw [buildHouses, buildHouses, List.foldl_append, List.foldl_append, List.foldl_cons,
    houseStep_skip _ _ h1 h2]

/-- C8: a calculator output line containing `warning:` or `error:` never
produces a point in any of the maps, and a line failing the position grammar is
silently skipped: inserting such a line anywhere in either text stream leaves
the assembled chart unchanged. -/
theorem c8_line_filtering (pre post hpre hpost : List (List Char)) (l : List Char)
    (hl : containsList (("error:").data) l = true ∨ containsList (("warning:").data) l = true ∨
      (parsePlanetLine (String.mk l) = none ∧ parseHouseLine (String.mk l) = none ∧
        parseChartPointLine (String.mk l) = none)) :
    chartFromLines (pre ++ l :: post) (hpre ++ hpost) =
        chartFromLines (pre ++ post) (hpre ++ hpost) ∧
    chartFromLines (pre ++ post) (hpre ++ l :: hpost) =
        chartFromLines (pre ++ post) (hpre ++ hpost) := by
  by_cases hk : keepLine l = false
  · constructor
    · unfold chartFromLines
      rw [filter_skip hk pre post]
    · unfold chartFromLines
      rw [filter_skip hk hpre hpost]
  · have hkt : keepLine l = true := by
      cases hkl : keepLine l
      · exact absurd hkl hk
      · rfl
    have hparse : parsePlanetLine (String.mk l) = none ∧ parseHouseLine (String.mk l) = none ∧
        parseChartPointLine (String.mk l) = none := by
      rcases hl with he | hw | hp
      · exact absurd (by rw [keepLine, he]; simp) hk
      · exact absurd (by rw [keepLine, hw]; simp) hk
      · exact hp
    obtain ⟨hp1, hp2, hp3⟩ := hparse
    constructor
    · unfold chartFromLines
      rw [show (pre ++ l :: post).filter keepLine =
          pre.filter keepLine ++ l :: post.filter keepLine from by
        simp [List.filter_append, List.filter_cons, hkt]]
      simp only [List.filter_append]
      rw [buildPlanets_skip _ _ _ hp1]
    · unfold chartFromLines
      rw [show (hpre ++ l :: hpost).filter keepLine =
          hpre.filter keepLine ++ l :: hpost.filter keepLine from by
        simp [List.filter_append, List.filter_cons, hkt]]
      simp only [List.filter_append]
      rw [buildHouses_skip _ _ _ hp2 hp3]

/-- Witness for C8: inserting the line `swetest error: no ephemeris` changes
nothing in the chart assembled from one Sun line. -/
theorem c8_witness :
    chartFromLines ([("Sun ,10 ar 0\x270").data] ++ ("swetest error: no ephemeris").data ::
        ([] : List (List Char))) ([] ++ ([] : List (List Char))) =
      chartFromLines ([("Sun ,10 ar 0\x270").data] ++ ([] : List (List Char)))
        ([] ++ ([] : List (List Char))) ∧
    chartFromLines ([("Sun ,10 ar 0\x270").data] ++ ([] : List (List Char)))
        ([] ++ ("swetest error: no ephemeris").data :: ([] : List (List Char))) =
      chartFromLines ([("Sun ,10 ar 0\x270").data] ++ ([] : List (List Char)))
        ([] ++ ([] : List (List Char))) :=
  c8_line_filtering _ _ _ _ _ (Or.inl (by decide))

/-! ## C10 -/

theorem length_filterMap_ite {α β : Type} (l : List α) (p : α → Prop) [DecidablePred p]
    (g : α → β) :
    (l.filterMap fun a => if p a then some (g a) else none).length =
      (l.filter fun a => decide (p a)).length := by
  induction l with
  | nil => rfl
  | cons a t ih => by_cases h : p a <;> simp [List.filterMap_cons, List.filter_cons, h, ih]

/-- Exclusion of one orb window given membership in a disjoint one. -/
theorem window_excl {d a o b p : ℚ} (h : |d - a| ≤ o)
    (hab : a + o < b - p ∨ b + p < a - o) : ¬ |d - b| ≤ p := by
  intro hc
  rw [abs_le] at h hc
  rcases hab with hab | hab <;> linarith

/-- The seven orb windows are pairwise disjoint: at most one aspect type can
match any separation value. -/
theorem windows_disjoint (d : ℚ) :
    ((aspectTypes.filter fun t => decide (|d - t.2.1| ≤ t.2.2)).length ≤ 1) := by
  simp only [aspectTypes, List.filter_cons, List.filter_nil, decide_eq_true_eq]
  by_cases h1 : |d - 0| ≤ 8
  · rw [if_pos h1, if_neg (window_excl h1 (by norm_num)), if_neg (window_excl h1 (by norm_num)),
      if_neg (window_excl h1 (by norm_num)), if_neg (window_excl h1 (by norm_num)),
      if_neg (window_excl h1 (by norm_num)), if_neg (window_excl h1 (by norm_num))]
    simp
  · rw [if_neg h1]
    by_cases h2 : |d - 30| ≤ 3
    · rw [if_pos h2, if_neg (window_excl h2 (by norm_num)), if_neg (window_excl h2 (by norm_num)),
        if_neg (window_excl h2 (by norm_num)), if_neg (window_excl h2 (by norm_num)),
        if_neg (window_excl h2 (by norm_num))]
      simp
    · rw [if_neg h2]
      by_cases h3 : |d - 60| ≤ 6
      · rw [if_pos h3, if_neg (window_excl h3 (by norm_num)),
          if_neg (window_excl h3 (by norm_num)), if_neg (window_excl h3 (by norm_num)),
          if_neg (window_excl h3 (by norm_num))]
        simp
      · rw [if_neg h3]
        by_cases h4 : |d - 90| ≤ 8
        · rw [if_pos h4, if_neg (window_excl h4 (by norm_num)),
            if_neg (window_excl h4 (by norm_num)), if_neg (window_excl h4 (by norm_num))]
          simp
        · rw [if_neg h4]
          by_cases h5 : |d - 120| ≤ 8
          · rw [if_pos h5, if_neg (window_excl h5 (by norm_num)),
              if_neg (window_excl h5 (by norm_num))]
            simp
          · rw [if_neg h5]
            by_cases h6 : |d - 150| ≤ 3
            · rw [if_pos h6, if_neg (window_excl h6 (by norm_num))]
              simp
            · rw [if_neg h6]
              by_cases h7 : |d - 180| ≤ 8
              · rw [if_pos h7]
                simp
              · rw [if_neg h7]
                simp

theorem pairAspects_length_le (p1 p2 : String) (pos1 pos2 : CPoint) :
    (pairAspects p1 p2 pos1 pos2).length ≤ 1 := by
  obtain ⟨lon1, sg1, dg1⟩ := pos1
  obtain ⟨lon2, sg2, dg2⟩ := pos2
  rcases lon1 with _ | l1 <;> rcases lon2 with _ | l2 <;> dsimp only [pairAspects] <;>
    try exact Nat.zero_le 1
  rw [length_filterMap_ite aspectTypes (fun t => |sepOf l1 l2 - t.2.1| ≤ t.2.2)
    (fun t => mkAspect p1 p2 t.1 t.2.1 (sepOf l1 l2) ⟨some l1, sg1, dg1⟩ ⟨some l2, sg2, dg2⟩)]
  exact windows_disjoint (sepOf l1 l2)

theorem pairList_length_le (A B : PFun) (p1 p2 : String) :
    (pairList A B p1 p2).length ≤ 1 := by
  rcases hA : A p1 with _ | pos1 <;> rcases hB : B p2 with _ | pos2 <;>
    simp only [pairList, hA, hB] <;> try exact Nat.zero_le 1
  exact pairAspects_length_le p1 p2 pos1 pos2

theorem flatMap_length_le {α β : Type} (l : List α) (f : α → List β) (c : ℕ)
    (h : ∀ a ∈ l, (f a).length ≤ c) : (l.flatMap f).length ≤ l.length * c := by
  induction l with
  | nil => simp
  | cons a t ih =>
    rw [List.flatMap_cons, List.length_append, List.length_cons]
    calc (f a).length + (t.flatMap f).length ≤ c + t.length * c :=
          Nat.add_le_add (h a (List.mem_cons_self a t))
            (ih fun x hx => h x (List.mem_cons_of_mem _ hx))
      _ = (t.length + 1) * c := by ring

/-- C10: the seven orb windows are pairwise disjoint, each ordered planet pair
contributes at most one aspect record, and the synastry list never exceeds the
100 ordered pairs. -/
theorem c10_disjoint_windows_bound (A B : PFun) :
    (∀ d : ℚ, ((aspectTypes.filter fun t => decide (|d - t.2.1| ≤ t.2.2)).length ≤ 1)) ∧
    (∀ p1 p2 pos1 pos2, (pairAspects p1 p2 pos1 pos2).length ≤ 1) ∧
    (synastryAspects A B).length ≤ 100 := by
  refine ⟨windows_disjoint, fun p1 p2 pos1 pos2 => pairAspects_length_le p1 p2 pos1 pos2, ?_⟩
  rw [synastryAspects, List.length_mergeSort, rawAspects]
  have h := flatMap_length_le mainPlanets
    (fun p1 => mainPlanets.flatMap fun p2 => pairList A B p1 p2) 10
    (fun p1 _ => by
      have h2 := flatMap_length_le mainPlanets (fun p2 => pairList A B p1 p2) 1
        (fun p2 _ => pairList_length_le A B p1 p2)
      simpa using h2)
  simpa using h

/-! ## C3 -/

theorem aspLE_trans : ∀ a b c : Aspect, aspLE a b → aspLE b c → aspLE a c := by
  intro a b c h1 h2
  simp only [aspLE, decide_eq_true_eq] at h1 h2 ⊢
  exact le_trans h1 h2

theorem aspLE_total : ∀ a b : Aspect, aspLE a b || aspLE b a := by
  intro a b
  simp only [aspLE]
  rcases le_total a.orb b.orb with h | h <;> simp [h]

/-- C3: the aspect list returned by the synastry engine is non-decreasing in
orb, and elements of equal orb keep their input enumeration order (the sort is
stable): for every orb value the equal-orb sublist of the output coincides with
that of the enumeration. -/
theorem c3_sorted_stable (A B : PFun) :
    (synastryAspects A B).Pairwise (fun x y => x.orb ≤ y.orb) ∧
    ∀ q : ℚ, (synastryAspects A B).filter (fun a => decide (a.orb = q)) =
      (rawAspects A B).filter (fun a => decide (a.orb = q)) := by
  constructor
  · have h := List.sorted_mergeSort aspLE_trans aspLE_total (rawAspects A B)
    exact h.imp fun hab => by simpa [aspLE] using hab
  · intro q
    have hpair : ((rawAspects A B).filter fun a => decide (a.orb = q)).Pairwise
        (fun a b => aspLE a b = true) := by
      apply List.pairwise_of_forall_mem_list
      intro a ha b hb
      have ha2 := List.of_mem_filter ha
      have hb2 := List.of_mem_filter hb
      simp only [decide_eq_true_eq] at ha2 hb2
      simp [aspLE, ha2, hb2]
    have hsub : List.Sublist ((rawAspects A B).filter fun a => decide (a.orb = q))
        (synastryAspects A B) :=
      List.sublist_mergeSort aspLE_trans aspLE_total hpair (List.filter_sublist _)
    have hsub2 : List.Sublist ((rawAspects A B).filter fun a => decide (a.orb = q))
        ((synastryAspects A B).filter (fun a => decide (a.orb = q))) := by
      have := hsub.filter (fun a => decide (a.orb = q))
      rwa [List.filter_eq_self.mpr (fun a ha => List.mem_filter.mp ha |>.2)] at this
    have hlen : ((synastryAspects A B).filter fun a => decide (a.orb = q)).length =
        ((rawAspects A B).filter fun a => decide (a.orb = q)).length :=
      ((List.mergeSort_perm (rawAspects A B) aspLE).filter _).length_eq
    exact (hsub2.eq_of_length hlen.symm).symm

/-! ## C4 -/

theorem pairAspects_swap (p1 p2 : String) (pos1 pos2 : CPoint) :
    (pairAspects p1 p2 pos1 pos2).map roleSwap = pairAspects p2 p1 pos2 pos1 := by
  obtain ⟨lon1, sg1, dg1⟩ := pos1
  obtain ⟨lon2, sg2, dg2⟩ := pos2
  rcases lon1 with _ | l1 <;> rcases lon2 with _ | l2 <;> dsimp only [pairAspects] <;> try rfl
  rw [List.map_filterMap]
  rw [show sepOf l2 l1 = sepOf l1 l2 from by rw [sepOf, sepOf, abs_sub_comm]]
  congr 1
  funext t
  by_cases hc : |sepOf l1 l2 - t.2.1| ≤ t.2.2 <;> simp [hc, mkAspect, roleSwap]

theorem pairList_swap (A B : PFun) (p1 p2 : String) :
    (pairList A B p1 p2).map roleSwap = pairList B A p2 p1 := by
  rcases hA : A p1 with _ | pos1 <;> rcases hB : B p2 with _ | pos2 <;>
    simp only [pairList, hA, hB] <;> try rfl
  exact pairAspects_swap p1 p2 pos1 pos2

/-- C4: the synastry engine is symmetric: the multiset of aspect records of
`synastryAspects A B`, with the person1/person2 planets and positions swapped
in each record, is exactly the multiset of `synastryAspects B A` (so in
particular the two runs agree as multisets of (angle, type, orb) triples). -/
theorem c4_symmetry (A B : PFun) :
    (↑(synastryAspects A B) : Multiset Aspect).map roleSwap = ↑(synastryAspects B A) := by
  have h1 : (↑(synastryAspects A B) : Multiset Aspect) = ↑(rawAspects A B) :=
    Multiset.coe_eq_coe.mpr (List.mergeSort_perm _ _)
  have h2 : (↑(synastryAspects B A) : Multiset Aspect) = ↑(rawAspects B A) :=
    Multiset.coe_eq_coe.mpr (List.mergeSort_perm _ _)
  rw [h1, h2, rawAspects, rawAspects]
  simp only [← Multiset.coe_bind, Multiset.map_bind, Multiset.map_coe, pairList_swap]
  exact Multiset.bind_bind _ _

/-! ## C2 -/

theorem aspectTypes_name_inj :
    ∀ x ∈ aspectTypes, ∀ y ∈ aspectTypes, x.1 = y.1 → x = y := by decide

theorem mem_rawAspects_fields {A B : PFun} {a : Aspect} (h : a ∈ rawAspects A B) :
    a.person1Planet ∈ mainPlanets ∧ a.person2Planet ∈ mainPlanets := by
  rw [rawAspects] at h
  obtain ⟨q1, hq1, h⟩ := List.mem_flatMap.mp h
  obtain ⟨q2, hq2, h⟩ := List.mem_flatMap.mp h
  rcases hA2 : A q1 with _ | pos1 <;> rcases hB2 : B q2 with _ | pos2 <;>
    simp only [pairList, hA2, hB2] at h <;> try simp at h
  obtain ⟨lon1, sg1, dg1⟩ := pos1
  obtain ⟨lon2, sg2, dg2⟩ := pos2
  rcases lon1 with _ | m1 <;> rcases lon2 with _ | m2 <;> dsimp only [pairAspects] at h <;>
    try simp at h
  obtain ⟨tn, ta, tb, htt, hcnd, hsome⟩ := h
  rw [← hsome]
  exact ⟨hq1, hq2⟩

/-- C2: for each ordered pair of classical planets present in both maps, the
engine computes the folded separation (equal to the claimed
`min (|l1 - l2|) (360 - |l1 - l2|)` for in-range longitudes), and a record for
an aspect type is emitted exactly when `|d - targetAngle| ≤ maxOrb`, with the
seven fixed (type, angle, orb) constants, `orb = |d - angle|` and
`exactAngle = d` rounded to two decimals inside the record; only the ten
classical planets ever appear. -/
theorem c2_aspect_emission (A B : PFun) (p1 p2 : String) (pos1 pos2 : CPoint) (l1 l2 : ℚ)
    (h1 : p1 ∈ mainPlanets) (h2 : p2 ∈ mainPlanets)
    (hA : A p1 = some pos1) (hB : B p2 = some pos2)
    (hl1 : pos1.longitude = some l1) (hl2 : pos2.longitude = some l2)
    (hr1 : 0 ≤ l1) (hr1b : l1 < 360) (hr2 : 0 ≤ l2) (hr2b : l2 < 360)
    (nm : String) (ang mo : ℚ) (ht : (nm, ang, mo) ∈ aspectTypes) :
    aspectTypes = [(("conjunction"), 0, 8), (("semisextile"), 30, 3), (("sextile"), 60, 6),
      (("square"), 90, 8), (("trine"), 120, 8), (("quincunx"), 150, 3),
      (("opposition"), 180, 8)] ∧
    sepOf l1 l2 = min |l1 - l2| (360 - |l1 - l2|) ∧
    (mkAspect p1 p2 nm ang (sepOf l1 l2) pos1 pos2 ∈ synastryAspects A B ↔
      |sepOf l1 l2 - ang| ≤ mo) ∧
    (∀ a ∈ synastryAspects A B, a.person1Planet ∈ mainPlanets ∧
      a.person2Planet ∈ mainPlanets) := by
  refine ⟨rfl, ?_, ?_, ?_⟩
  · have hd : |l1 - l2| < 360 := by
      rw [abs_sub_lt_iff]
      constructor <;> linarith
    rw [sepOf]
    split_ifs with hgt
    · exact (min_eq_right (by linarith)).symm
    · exact (min_eq_left (by linarith [not_lt.mp hgt])).symm
  · constructor
    · intro hm
      rw [synastryAspects, List.mem_mergeSort, rawAspects] at hm
      obtain ⟨q1, hq1, hm⟩ := List.mem_flatMap.mp hm
      obtain ⟨q2, hq2, hm⟩ := List.mem_flatMap.mp hm
      rcases hA2 : A q1 with _ | qpos1 <;> rcases hB2 : B q2 with _ | qpos2 <;>
        simp only [pairList, hA2, hB2] at hm <;> try simp at hm
      obtain ⟨qlon1, qsg1, qdg1⟩ := qpos1
      obtain ⟨qlon2, qsg2, qdg2⟩ := qpos2
      rcases qlon1 with _ | m1 <;> rcases qlon2 with _ | m2 <;>
        dsimp only [pairAspects] at hm <;> try simp at hm
      obtain ⟨tn, ta, tb, htt, hcnd, hsome⟩ := hm
      simp only [mkAspect, Aspect.mk.injEq] at hsome
      obtain ⟨e1, e2, e3, -, -, e6, e7⟩ := hsome
      subst e1
      subst e2
      subst e3
      subst e6
      subst e7
      dsimp only at hl1 hl2
      rw [Option.some.injEq] at hl1 hl2
      subst hl1
      subst hl2
      have hteq : (tn, ta, tb) = (tn, ang, mo) :=
        aspectTypes_name_inj (tn, ta, tb) htt (tn, ang, mo) ht rfl
      rw [Prod.mk.injEq, Prod.mk.injEq] at hteq
      obtain ⟨-, rfl, rfl⟩ := hteq
      exact hcnd
    · intro hcond
      rw [synastryAspects, List.mem_mergeSort, rawAspects]
      refine List.mem_flatMap.mpr ⟨p1, h1, List.mem_flatMap.mpr ⟨p2, h2, ?_⟩⟩
      simp only [pairList, hA, hB]
      obtain ⟨lon1, sg1, dg1⟩ := pos1
      obtain ⟨lon2, sg2, dg2⟩ := pos2
      dsimp only at hl1 hl2
      subst hl1
      subst hl2
      dsimp only [pairAspects]
      refine List.mem_filterMap.mpr ⟨(nm, ang, mo), ht, ?_⟩
      dsimp only
      rw [if_pos hcond]
  · intro a ha
    rw [synastryAspects, List.mem_mergeSort] at ha
    exact mem_rawAspects_fields ha

/-- Witness for C2 at the concrete scenario of the spec: planets at longitudes
0 and 95 and the square window. -/
theorem c2_witness :
    aspectTypes = [(("conjunction"), 0, 8), (("semisextile"), 30, 3), (("sextile"), 60, 6),
      (("square"), 90, 8), (("trine"), 120, 8), (("quincunx"), 150, 3),
      (("opposition"), 180, 8)] ∧
    sepOf 0 95 = min |(0 : ℚ) - 95| (360 - |(0 : ℚ) - 95|) ∧
    (mkAspect ("Sun") ("Sun") ("square") 90 (sepOf 0 95)
        ⟨some 0, some ("Aries"), some 0⟩ ⟨some 95, some ("Taurus"), some 5⟩ ∈
      synastryAspects
        (fun s => if s = ("Sun") then some ⟨some 0, some ("Aries"), some 0⟩ else none)
        (fun s => if s = ("Sun") then some ⟨some 95, some ("Taurus"), some 5⟩ else none) ↔
      |sepOf 0 95 - 90| ≤ 8) ∧
    (∀ a ∈ synastryAspects
        (fun s => if s = ("Sun") then some ⟨some 0, some ("Aries"), some 0⟩ else none)
        (fun s => if s = ("Sun") then some ⟨some 95, some ("Taurus"), some 5⟩ else none),
      a.person1Planet ∈ mainPlanets ∧ a.person2Planet ∈ mainPlanets) :=
  c2_aspect_emission
    (fun s => if s = ("Sun") then some ⟨some 0, some ("Aries"), some 0⟩ else none)
    (fun s => if s = ("Sun") then some ⟨some 95, some ("Taurus"), some 5⟩ else none)
    ("Sun") ("Sun") ⟨some 0, some ("Aries"), some 0⟩ ⟨some 95, some ("Taurus"), some 5⟩ 0 95
    (by decide) (by decide) (by simp) (by simp) rfl rfl (by norm_num) (by norm_num)
    (by norm_num) (by norm_num) ("square") 90 8 (by decide)

/-! ## C1 -/

/-- The data-model invariant of a chart point with numeric fields: longitude is
nonnegative and the sign base offset plus degreeInSign is the longitude modulo
360 within 0.01 degrees. -/
def InvPt (p : CPoint) : Prop :=
  (∀ l, p.longitude = some l → 0 ≤ l) ∧
  (∀ l d s, p.longitude = some l → p.degree = some d → p.sign = some s →
    ∃ off : ℚ, signOffsetOf s = some off ∧ ∃ k : ℤ, |off + d - l - 360 * k| ≤ 1 / 100)

theorem lookupA_mem_snd {α : Type} [DecidableEq α] {m : List (α × CPoint)} {k : α} {v : CPoint}
    (h : lookupA m k = some v) : v ∈ m.map Prod.snd := by
  induction m with
  | nil => simp [lookupA] at h
  | cons e t ih =>
    obtain ⟨k0, v0⟩ := e
    rw [lookupA] at h
    split_ifs at h with hk
    · rw [Option.some.injEq] at h
      rw [← h]
      exact List.mem_cons_self _ _
    · exact List.mem_cons_of_mem _ (ih h)

theorem mem_snd_upsertA {α : Type} [DecidableEq α] {m : List (α × CPoint)} {k : α}
    {v p : CPoint} (h : p ∈ (upsertA m k v).map Prod.snd) : p = v ∨ p ∈ m.map Prod.snd := by
  induction m with
  | nil => simpa [upsertA] using h
  | cons e t ih =>
    obtain ⟨k0, v0⟩ := e
    rw [upsertA] at h
    split_ifs at h with hk
    · rcases List.mem_cons.mp h with h | h
      · exact Or.inl h
      · exact Or.inr (List.mem_cons_of_mem _ h)
    · rcases List.mem_cons.mp h with h | h
      · exact Or.inr (List.mem_cons.mpr (Or.inl h))
      · rcases ih h with h | h
        · exact Or.inl h
        · exact Or.inr (List.mem_cons_of_mem _ h)

theorem numericTail_inv (r : RawPos) (nm : String) (off : ℚ)
    (hsign : lookupTbl signMap r.abbr = some (nm, off)) :
    InvPt ⟨(numericTail r off).1, some nm, (numericTail r off).2⟩ := by
  have hcoh := signMap_coherent _ (lookupTbl_mem hsign)
  dsimp only at hcoh
  obtain ⟨hso, hoff0, -⟩ := hcoh
  cases hsec : jsParseFloat r.secTok with
  | none =>
    constructor <;> intro l
    · intro hl
      simp [numericTail, hsec] at hl
    · intro d sg hl
      simp [numericTail, hsec] at hl
  | some sv =>
    have hs0 : 0 ≤ sv := jsParseFloat_nonneg hsec
    have hdeg0 : (0 : ℚ) ≤ (r.deg : ℚ) := Nat.cast_nonneg _
    have hmin0 : (0 : ℚ) ≤ (r.minutes : ℚ) := Nat.cast_nonneg _
    constructor
    · intro l hl
      simp only [numericTail] at hl
      rw [hsec] at hl
      dsimp only [Option.map] at hl
      rw [Option.some.injEq] at hl
      rw [← hl]
      have : (0 : ℚ) ≤ sv / 3600 := by positivity
      have : (0 : ℚ) ≤ (r.minutes : ℚ) / 60 := by positivity
      linarith
    · intro l d sg hl hd hsg
      simp only [numericTail] at hl hd
      rw [hsec] at hl hd
      dsimp only [Option.map] at hl hd
      rw [Option.some.injEq] at hl hd hsg
      refine ⟨off, by rw [← hsg]; exact hso, 0, ?_⟩
      rw [← hl, ← hd]
      have hb := round2_sub_le ((r.deg : ℚ) + (r.minutes : ℚ) / 60 + sv / 3600)
      rw [abs_le] at hb ⊢
      constructor <;> push_cast <;> linarith [hb.1, hb.2]

theorem parsePlanetLine_inv {line : String} {p : PlanetParse}
    (hp : parsePlanetLine line = some p) : InvPt (toCPoint p) := by
  rw [parsePlanetLine] at hp
  rcases hsplit : splitOnCharList commaChar (trimList line.data) with _ | ⟨p0, _ | ⟨p1, rest⟩⟩ <;>
    rw [hsplit] at hp <;> dsimp only at hp
  · exact absurd hp (by simp)
  · exact absurd hp (by simp)
  · rcases hreg : posRegex (trimList p1) with _ | r <;> rw [hreg] at hp <;> dsimp only at hp
    · exact absurd hp (by simp)
    · rcases hsgn : lookupTbl signMap r.abbr with _ | ⟨nm, off⟩ <;> rw [hsgn] at hp <;>
        dsimp only at hp
      · exact absurd hp (by simp)
      · rw [Option.some.injEq] at hp
        rw [← hp]
        exact numericTail_inv r nm off hsgn

theorem parseHouseLine_inv {line : String} {h : HouseParse}
    (hp : parseHouseLine line = some h) : InvPt (houseCPoint h) := by
  rw [parseHouseLine] at hp
  rcases hsplit : splitOnCharList commaChar (trimList line.data) with _ | ⟨p0, _ | ⟨p1, rest⟩⟩ <;>
    rw [hsplit] at hp <;> dsimp only at hp
  · exact absurd hp (by simp)
  · exact absurd hp (by simp)
  · rcases hlab : houseLabel (trimList p0) with _ | hn <;> rw [hlab] at hp <;> dsimp only at hp
    · exact absurd hp (by simp)
    · rcases hreg : posRegex (trimList p1) with _ | r <;> rw [hreg] at hp <;> dsimp only at hp
      · exact absurd hp (by simp)
      · rcases hsgn : lookupTbl signMap r.abbr with _ | ⟨nm, off⟩ <;> rw [hsgn] at hp <;>
          dsimp only at hp
        · exact absurd hp (by simp)
        · rw [Option.some.injEq] at hp
          rw [← hp]
          exact numericTail_inv r nm off hsgn

theorem signsList_offset : ∀ n : ℕ, n < 12 → ∀ s, signsList[n]? = some s →
    signOffsetOf s = some ((30 * n : ℕ) : ℚ) := by
  decide

theorem synthFromLon_inv (x : Option ℚ) (hx : ∀ l, x = some l → 0 ≤ l) :
    InvPt (synthFromLon x) := by
  cases x with
  | none =>
    constructor <;> intro l
    · intro hl
      simp [synthFromLon] at hl
    · intro d sg hl
      simp [synthFromLon] at hl
  | some l =>
    have h0 : 0 ≤ l := hx l rfl
    have hfl0 : (0 : ℤ) ≤ ⌊l / 30⌋ := by
      rw [Int.le_floor]
      positivity
    constructor
    · intro l2 hl2
      simp only [synthFromLon, Option.some.injEq] at hl2
      rw [← hl2]
      exact h0
    · intro l2 d sg hl2 hd hsg
      simp only [synthFromLon, Option.some.injEq] at hl2 hd hsg
      rw [if_neg (not_lt.mpr hfl0)] at hsg
      obtain ⟨hlt, hget⟩ := List.getElem?_eq_some_iff.mp hsg
      have hlt12 : (⌊l / 30⌋ : ℤ).toNat < 12 := by simpa [signsList] using hlt
      have hoff := signsList_offset _ hlt12 sg (by rw [List.getElem?_eq_some_iff]; exact ⟨hlt, hget⟩)
      refine ⟨((30 * (⌊l / 30⌋ : ℤ).toNat : ℕ) : ℚ), hoff, 0, ?_⟩
      have hcast : (((⌊l / 30⌋ : ℤ).toNat : ℕ) : ℚ) = ((⌊l / 30⌋ : ℤ) : ℚ) := by
        exact_mod_cast congrArg (fun z : ℤ => (z : ℚ)) (Int.toNat_of_nonneg hfl0)
      rw [← hl2, ← hd, jsRem_eq_sub_floor h0]
      push_cast [hcast]
      have hb := round2_sub_le (l - 30 * ((⌊l / 30⌋ : ℤ) : ℚ))
      rw [abs_le] at hb ⊢
      constructor <;> linarith [hb.1, hb.2]

theorem jsRem_gt_neg {a b : ℚ} (hb : 0 < b) : -b < jsRem a b := by
  by_cases ha : 0 ≤ a
  · have := jsRem_nonneg_of_nonneg ha hb
    linarith
  · rw [jsRem_neg_eq ha]
    have := jsRem_lt_of_nonneg (by linarith [not_le.mp ha] : (0 : ℚ) ≤ -a) hb
    linarith

theorem pofLon_nonneg {x y z : Option ℚ} {f : ℚ} (h : pofLon x y z = some f) : 0 ≤ f := by
  rcases x with _ | a
  · simp [pofLon] at h
  rcases y with _ | s
  · simp [pofLon] at h
  rcases z with _ | m
  · simp [pofLon] at h
  simp only [pofLon, Option.some.injEq] at h
  split_ifs at h with hneg
  · have := jsRem_gt_neg (a := a + m - s) (b := 360) (by norm_num)
    linarith [h]
  · rw [← h]
    exact not_lt.mp hneg

theorem foldl_planetStep_inv (lines : List (List Char)) (acc : SMap)
    (hacc : ∀ p ∈ acc.map Prod.snd, InvPt p) :
    ∀ p ∈ (lines.foldl planetStep acc).map Prod.snd, InvPt p := by
  induction lines generalizing acc with
  | nil => exact hacc
  | cons line t ih =>
    rw [List.foldl_cons]
    apply ih
    intro p hp
    rw [planetStep] at hp
    rcases hparse : parsePlanetLine (String.mk line) with _ | pl <;> rw [hparse] at hp
    · exact hacc p hp
    · rcases mem_snd_upsertA hp with h | h
      · rw [h]
        exact parsePlanetLine_inv hparse
      · exact hacc p h

theorem houseStep_inv (acc : NMap × SMap) (line : List Char)
    (h1 : ∀ p ∈ acc.1.map Prod.snd, InvPt p) (h2 : ∀ p ∈ acc.2.map Prod.snd, InvPt p) :
    (∀ p ∈ (houseStep acc line).1.map Prod.snd, InvPt p) ∧
    (∀ p ∈ (houseStep acc line).2.map Prod.snd, InvPt p) := by
  rw [houseStep]
  split_ifs with hh ha
  · rcases hparse : parseHouseLine (String.mk line) with _ | hl
    · exact ⟨h1, h2⟩
    · dsimp only
      split_ifs with hrange
      · refine ⟨?_, h2⟩
        intro p hp
        rcases mem_snd_upsertA hp with h | h
        · rw [h]
          exact parseHouseLine_inv hparse
        · exact h1 p h
      · exact ⟨h1, h2⟩
  · rcases hparse : parseChartPointLine (String.mk line) with _ | cp
    · exact ⟨h1, h2⟩
    · refine ⟨h1, ?_⟩
      intro p hp
      rcases mem_snd_upsertA hp with h | h
      · rw [h]
        exact parsePlanetLine_inv hparse
      · exact h2 p h
  · exact ⟨h1, h2⟩

theorem foldl_houseStep_inv (lines : List (List Char)) (acc : NMap × SMap)
    (h1 : ∀ p ∈ acc.1.map Prod.snd, InvPt p) (h2 : ∀ p ∈ acc.2.map Prod.snd, InvPt p) :
    (∀ p ∈ (lines.foldl houseStep acc).1.map Prod.snd, InvPt p) ∧
    (∀ p ∈ (lines.foldl houseStep acc).2.map Prod.snd, InvPt p) := by
  induction lines generalizing acc with
  | nil => exact ⟨h1, h2⟩
  | cons line t ih =>
    rw [List.foldl_cons]
    obtain ⟨g1, g2⟩ := houseStep_inv acc line h1 h2
    exact ih (houseStep acc line) g1 g2

theorem addSouthNode_inv (planets add : SMap)
    (hpl : ∀ p ∈ planets.map Prod.snd, InvPt p) (hadd : ∀ p ∈ add.map Prod.snd, InvPt p) :
    ∀ p ∈ (addSouthNode planets add).map Prod.snd, InvPt p := by
  rw [addSouthNode]
  split
  · exact hadd
  · rename_i nn hnn
    intro p hp
    rcases mem_snd_upsertA hp with h | h
    · rw [h]
      apply synthFromLon_inv
      intro l hl
      rcases hlon : nn.longitude with _ | l0 <;> rw [hlon] at hl
      · simp at hl
      · dsimp only [Option.map] at hl
        rw [Option.some.injEq] at hl
        have h00 : 0 ≤ l0 := (hpl nn (lookupA_mem_snd hnn)).1 l0 hlon
        rw [← hl]
        exact jsRem_nonneg_of_nonneg (by linarith) (by norm_num)
    · exact hadd p h

theorem addPoF_inv (planets cps add : SMap)
    (hadd : ∀ p ∈ add.map Prod.snd, InvPt p) :
    ∀ p ∈ (addPoF planets cps add).map Prod.snd, InvPt p := by
  rw [addPoF]
  split
  · rename_i asc sun moon hasc hsun hmoon
    intro p hp
    rcases mem_snd_upsertA hp with h | h
    · rw [h]
      apply synthFromLon_inv
      intro l hl
      exact pofLon_nonneg hl
    · exact hadd p h
  · exact hadd

theorem addOpposite_inv (cps : SMap) (src dst : String)
    (hcps : ∀ p ∈ cps.map Prod.snd, InvPt p) :
    ∀ p ∈ (addOpposite cps src dst).map Prod.snd, InvPt p := by
  rw [addOpposite]
  split
  · exact hcps
  · rename_i pt hpt
    intro p hp
    rcases mem_snd_upsertA hp with h | h
    · rw [h]
      apply synthFromLon_inv
      intro l hl
      rcases hlon : pt.longitude with _ | l0 <;> rw [hlon] at hl
      · simp at hl
      · dsimp only [Option.map] at hl
        rw [Option.some.injEq] at hl
        have h00 : 0 ≤ l0 := (hcps pt (lookupA_mem_snd hpt)).1 l0 hlon
        rw [← hl]
        exact jsRem_nonneg_of_nonneg (by linarith) (by norm_num)
    · exact hcps p h

theorem assembleChart_inv (ptxt htxt : String) :
    ∀ p ∈ allPoints (assembleChart ptxt htxt), InvPt p := by
  intro p hp
  rw [assembleChart, chartFromLines, allPoints] at hp
  have hpl := foldl_planetStep_inv
    ((splitOnCharList nlChar ptxt.data).filter keepLine) [] (by simp)
  have hhs := foldl_houseStep_inv
    ((splitOnCharList nlChar htxt.data).filter keepLine) ([], []) (by simp) (by simp)
  rcases List.mem_append.mp hp with hp | hp
  · rcases List.mem_append.mp hp with hp | hp
    · rcases List.mem_append.mp hp with hp | hp
      · exact hpl p hp
      · exact hhs.1 p hp
    · exact addOpposite_inv _ _ _ (addOpposite_inv _ _ _ hhs.2) p hp
  · rw [deriveAdditional] at hp
    exact addPoF_inv _ _ _ (addSouthNode_inv _ _ hpl (by simp)) p hp

/-- C1: every chart point appearing in an assembled chart — parsed planets,
houses, chart angles, and all synthesized points — with numeric fields
satisfies `signOffset(sign) + degreeInSign = longitude (mod 360)` within the
0.01-degree rounding tolerance. -/
theorem c1_roundtrip_invariant (ptxt htxt : String) (p : CPoint)
    (hp : p ∈ allPoints (assembleChart ptxt htxt)) (l d : ℚ) (s : String)
    (hl : p.longitude = some l) (hd : p.degree = some d) (hs : p.sign = some s) :
    ∃ off : ℚ, signOffsetOf s = some off ∧ ∃ k : ℤ, |off + d - l - 360 * k| ≤ 1 / 100 :=
  (assembleChart_inv ptxt htxt p hp).2 l d s hl hd hs

/-- Witness for C1: the chart assembled from the single planet line
`Sun ,10 ar 0<apos>0` contains the Sun at longitude 10, sign Aries, degree 10,
and the invariant holds there. -/
theorem c1_witness :
    ∃ off : ℚ, signOffsetOf ("Aries") = some off ∧
      ∃ k : ℤ, |off + 10 - 10 - 360 * k| ≤ 1 / 100 := by
  have hparse : parsePlanetLine (String.mk (("Sun ,10 ar 0\x270").data)) =
      some { name := "Sun", longitude := some 10, sign := "Aries", degree := some 10 } := by
    simp only [parsePlanetLine]
    rw [show splitOnCharList commaChar (trimList (("Sun ,10 ar 0\x270").data)) =
        [("Sun ").data, ("10 ar 0\x270").data] from by decide]
    dsimp only
    rw [show posRegex (trimList (("10 ar 0\x270").data)) =
        some ⟨10, "ar", 0, ("0").data⟩ from by decide]
    dsimp only
    rw [show lookupTbl signMap ("ar") = some (("Aries"), 0) from by decide]
    dsimp only
    simp only [numericTail]
    rw [show jsParseFloat (['0']) = some ((0 : ℕ) : ℚ) from by
      simp [jsParseFloat, digitsToNat]]
    dsimp only [Option.map]
    simp only [Option.some.injEq, PlanetParse.mk.injEq]
    refine ⟨by decide, by push_cast; norm_num, trivial, ?_⟩
    rw [show ((10 : ℕ) : ℚ) + ((0 : ℕ) : ℚ) / 60 + ((0 : ℕ) : ℚ) / 3600 = 10 from by
      push_cast; norm_num]
    rw [round2, show (10 : ℚ) * 100 + 1/2 = 2001 / 2 from by norm_num]
    rw [show ⌊(2001 : ℚ) / 2⌋ = (1000 : ℤ) from by (rw [Int.floor_eq_iff]; norm_num)]
    norm_num
  have hbuild : buildPlanets ([("Sun ,10 ar 0\x270").data]) =
      [(("Sun"), (⟨some 10, some ("Aries"), some 10⟩ : CPoint))] := by
    rw [buildPlanets, List.foldl_cons, List.foldl_nil, planetStep, hparse]
    rfl
  have hmem : (⟨some 10, some ("Aries"), some 10⟩ : CPoint) ∈
      allPoints (assembleChart ("Sun ,10 ar 0\x270") ("")) := by
    rw [assembleChart, chartFromLines, allPoints]
    rw [show ((splitOnCharList nlChar (("Sun ,10 ar 0\x270").data)).filter keepLine) =
        [("Sun ,10 ar 0\x270").data] from by decide]
    rw [show ((splitOnCharList nlChar (("").data)).filter keepLine) =
        ([] : List (List Char)) from by decide]
    rw [hbuild]
    exact List.mem_append.mpr (Or.inl (List.mem_append.mpr (Or.inl (List.mem_append.mpr
      (Or.inl (by simp))))))
  exact c1_roundtrip_invariant ("Sun ,10 ar 0\x270") ("")
    ⟨some 10, some ("Aries"), some 10⟩ hmem 10 10 ("Aries") rfl rfl rfl

end SwissEph
